import Mathlib

/-!
Verification of the MPD (Music Player Daemon) protocol client of this
repository (`mpd-client.ts`, with the locale comparator from `util.ts`):
command encoding, response classification, field coercion, message
assembly in object and list modes, and the directory-listing sort.

The JavaScript runtime behaviour the client relies on is embedded
explicitly: `String.prototype.split` with the `/:\s/` regular expression,
`parseInt`/`parseFloat`, truthiness, `Object.assign` on plain objects,
`substring`/`indexOf`/`startsWith`, and `Array.prototype.sort` as V8
(the engine under Deno) executes it on short arrays.  JavaScript numbers
are modelled as exact rationals plus NaN and the infinities; the inputs
appearing in the theorems below stay within the range where IEEE doubles
are exact, so no rounding is lost.
-/

/-- A JavaScript number: NaN, an infinity, or a finite value (modelled as
an exact rational; every numeric literal in this development is small
enough that the IEEE double is exact). -/
inductive JsNum
  | nan
  | inf (neg : Bool)
  | num (q : Rat)
deriving DecidableEq

/-- A rational with denominator 1, built without any gcd normalisation so
that kernel evaluation is cheap. -/
def ratOfInt (n : Int) : Rat := ⟨n, 1, one_ne_zero, Nat.coprime_one_right _⟩

/-- The JavaScript `\s` character class, restricted to the whitespace
characters that can actually occur here (the exotic Unicode space
separators are omitted; no input in this development contains them). -/
def isJsSpace (c : Char) : Bool :=
  c = ' ' || c = '\t' || c = '\n' || c = '\r' || c = '\x0b' || c = '\x0c' || c.toNat = 160

/-- Digit string to natural number (the digits are already validated). -/
def digitsToNat (l : List Char) : Nat :=
  l.foldl (fun acc c => acc * 10 + (c.toNat - 48)) 0

/-- Hexadecimal digit test, as used by `parseInt` with a `0x` prefix. -/
def isHexDigitChar (c : Char) : Bool :=
  c.isDigit || ('a' ≤ c && c ≤ 'f') || ('A' ≤ c && c ≤ 'F')

/-- Hexadecimal digit string to natural number. -/
def hexToNat (l : List Char) : Nat :=
  l.foldl (fun acc c =>
    acc * 16 + (if c.isDigit then c.toNat - 48
                else if 'a' ≤ c && c ≤ 'f' then c.toNat - 87
                else c.toNat - 55)) 0

/-- JavaScript `parseInt(s)` (no radix argument): skip leading whitespace,
optional sign, a `0x`/`0X` prefix selects base 16, otherwise the maximal
run of decimal digits is read; no digits gives NaN. -/
def jsParseIntChars (cs0 : List Char) : JsNum :=
  let cs := cs0.dropWhile isJsSpace
  let sc : Int × List Char :=
    match cs with
    | '-' :: r => (-1, r)
    | '+' :: r => (1, r)
    | _ => (1, cs)
  match sc.2 with
  | '0' :: 'x' :: r | '0' :: 'X' :: r =>
    let hd := r.takeWhile isHexDigitChar
    if hd.isEmpty then .nan else .num (ratOfInt (sc.1 * (hexToNat hd : Int)))
  | rest =>
    let dg := rest.takeWhile Char.isDigit
    if dg.isEmpty then .nan else .num (ratOfInt (sc.1 * (digitsToNat dg : Int)))

/-- Character-list prefix test (the heart of `String.prototype.startsWith`). -/
def beginsWithChars : List Char → List Char → Bool
  | [], _ => true
  | _ :: _, [] => false
  | a :: as, b :: bs => a = b && beginsWithChars as bs

/-- JavaScript `parseFloat(s)`: skip leading whitespace, optional sign,
`Infinity`, or decimal digits with optional fraction and exponent; the
longest valid literal prefix is taken and no digits at all gives NaN.
The result is the exact rational value of the literal. -/
def jsParseFloatChars (cs0 : List Char) : JsNum :=
  let cs := cs0.dropWhile isJsSpace
  let sc : Int × List Char :=
    match cs with
    | '-' :: r => (-1, r)
    | '+' :: r => (1, r)
    | _ => (1, cs)
  if beginsWithChars ['I','n','f','i','n','i','t','y'] sc.2 then .inf (sc.1 < 0)
  else
    let ip := sc.2.takeWhile Char.isDigit
    let cs1 := sc.2.dropWhile Char.isDigit
    let fp : List Char × List Char :=
      match cs1 with
      | '.' :: r => (r.takeWhile Char.isDigit, r.dropWhile Char.isDigit)
      | _ => ([], cs1)
    if ip.isEmpty && fp.1.isEmpty then .nan
    else
      let m : Nat := digitsToNat (ip ++ fp.1)
      let fl : Nat := fp.1.length
      let ex : Int :=
        (match fp.2 with
         | 'e' :: r | 'E' :: r =>
           let es : Int × List Char :=
             match r with
             | '-' :: rr => (-1, rr)
             | '+' :: rr => (1, rr)
             | _ => (1, r)
           let ed := es.2.takeWhile Char.isDigit
           if ed.isEmpty then 0 else es.1 * (digitsToNat ed : Int)
         | _ => 0) - (fl : Int)
      .num (if 0 ≤ ex then ratOfInt (sc.1 * (m : Int) * (10 : Int) ^ ex.toNat)
            else mkRat (sc.1 * (m : Int)) ((10 : Nat) ^ (-ex).toNat))

/-- `parseInt` applied to a value that may be `undefined` (destructuring a
short split result): `parseInt(undefined)` coerces to `"undefined"` and
yields NaN. -/
def jsParseIntOpt : Option String → JsNum
  | none => .nan
  | some s => jsParseIntChars s.data

/-- `parseFloat` applied to a value that may be `undefined`. -/
def jsParseFloatOpt : Option String → JsNum
  | none => .nan
  | some s => jsParseFloatChars s.data

/-- ASCII lower-casing of one character, as `String.prototype.toLowerCase`
acts on the ASCII keys occurring in the protocol. -/
def charToLower (c : Char) : Char :=
  if 'A' ≤ c && c ≤ 'Z' then Char.ofNat (c.toNat + 32) else c

/-- `String.prototype.toLowerCase` on the ASCII strings used here. -/
def jsToLower (s : String) : String := ⟨s.data.map charToLower⟩

/-- JavaScript `s.startsWith(pat)`. -/
def jsStartsWith (s pat : String) : Bool := beginsWithChars pat.data s.data

/-- JavaScript `s.substring(n)` for an in-range or clamped start index. -/
def jsDrop (s : String) (n : Nat) : String := ⟨s.data.drop n⟩

/-- Scanning worker for `indexOf` with a single-character needle. -/
def jsIndexOfCharAux (c : Char) : List Char → Nat → Int
  | [], _ => -1
  | x :: rest, i => if x = c then (i : Int) else jsIndexOfCharAux c rest (i + 1)

/-- JavaScript `s.indexOf(c)` where the needle is a one-character string
(the source only searches for `":"` and `"+"`). -/
def jsIndexOfChar (s : String) (c : Char) : Int := jsIndexOfCharAux c s.data 0

/-- Worker for `String.prototype.split` with a single-character separator. -/
def jsSplitCharAux (sep : Char) : List Char → List Char → List String
  | [], cur => [⟨cur.reverse⟩]
  | c :: rest, cur =>
    if c = sep then ⟨cur.reverse⟩ :: jsSplitCharAux sep rest []
    else jsSplitCharAux sep rest (c :: cur)

/-- JavaScript `s.split(":")` (used for the `time` and `audio` fields). -/
def jsSplitChar (s : String) (sep : Char) : List String :=
  jsSplitCharAux sep s.data []

/-- Worker for `String.prototype.split(/:\s/)`: the separator is a colon
followed by a whitespace character, matches are found left to right and
both separator characters are consumed. -/
def splitColonWsAux : List Char → List Char → List (List Char)
  | [], cur => [cur.reverse]
  | [c], cur => [(c :: cur).reverse]
  | c :: c2 :: rest, cur =>
    if c = ':' && isJsSpace c2 then cur.reverse :: splitColonWsAux rest []
    else splitColonWsAux (c2 :: rest) (c :: cur)

/-- JavaScript `messageLine.split(/:\s/)`. -/
def splitColonWs (s : String) : List String :=
  (splitColonWsAux s.data []).map fun l => ⟨l⟩

/-- Whether a character list contains a colon immediately followed by a
whitespace character (i.e. whether `/:\s/` matches inside it). -/
def hasColonWsPair : List Char → Bool
  | [] => false
  | c :: rest =>
    match rest with
    | [] => false
    | c2 :: _ => (c = ':' && isJsSpace c2) || hasColonWsPair rest

deriving instance DecidableEq for Except

/-- A value stored in an `MpdMessage` record.  The source type is
`Record<string, string | number | boolean | Date>`; the JavaScript value
`undefined` can also end up in a record (assigning `result[key] = value`
with `value` undefined), so it is represented explicitly.  A `Date` is
kept as the raw argument handed to `new Date(value)` (no theorem below
inspects the parsed timestamp). -/
inductive MpdValue
  | str (s : String)
  | num (n : JsNum)
  | bool (b : Bool)
  | date (raw : Option String)
  | undefined
deriving DecidableEq

/-- An MPD message: a JavaScript object with string keys, modelled as an
association list in insertion order with unique keys (enforced by
`setField`). -/
abbrev MpdMessage := List (String × MpdValue)

/-- How a call of `sendCommand` can fail: a protocol error (`ACK` line,
the embedded message is kept) or a JavaScript `TypeError` (a property
access on `undefined`). -/
inductive MpdError
  | protocolError (msg : String)
  | typeError
deriving DecidableEq

/-- The result of `sendCommand`: one message (object commands) or a list
of messages (the `playlistinfo` / `lsinfo` allow-list). -/
inductive MpdResult
  | obj (m : MpdMessage)
  | list (l : List MpdMessage)
deriving DecidableEq

/-- JavaScript truthiness of an `MpdValue`. -/
def jsTruthy : MpdValue → Bool
  | .str s => !(s == "")
  | .num .nan => false
  | .num (.inf _) => true
  | .num (.num q) => !(decide (q = 0))
  | .bool b => b
  | .date _ => true
  | .undefined => false

/-- Truthiness of a property access that may miss (`a.isDir` on a record
without that key is `undefined`, hence falsy). -/
def jsTruthyO : Option MpdValue → Bool
  | none => false
  | some v => jsTruthy v

/-- `result[key] = value` on a JavaScript object: an existing key keeps
its position and gets the new value, a new key is appended. -/
def setField : MpdMessage → String → MpdValue → MpdMessage
  | [], k, v => [(k, v)]
  | (k', v') :: rest, k, v =>
    if k' = k then (k, v) :: rest else (k', v') :: setField rest k v

/-- `Object.assign(target, src)`: copy every field of `src` into `target`
in insertion order (later keys overwrite earlier values). -/
def msgAssign (target src : MpdMessage) : MpdMessage :=
  src.foldl (fun t kv => setField t kv.1 kv.2) target

/-- Wrap a split component as the value written by `result[key] = value`:
a present component is a string, a missing one is `undefined`. -/
def jsStrVal : Option String → MpdValue
  | some s => .str s
  | none => .undefined

/-- `MpdClient.parseMessageLine`.  The line is split with `/:\s/` (so the
key is the text before the first colon-whitespace and the value the text
between the first and second occurrence, `undefined` when the line has no
separator); the statement `if (!messageLine) result;` in the source is a
no-op expression and is therefore not modelled.  The `time` and `audio`
branches call `value.split(":")`, which throws a `TypeError` when `value`
is `undefined`. -/
def parseMessageLine (messageLine : String) : Except MpdError MpdMessage :=
  let parts := splitColonWs messageLine
  let key := parts.getD 0 ""
  let value : Option String := parts.get? 1
  if key = "Id" || key = "Pos" || key = "volume" || key = "repeat" ||
     key = "random" || key = "single" || key = "consume" || key = "playlist" then
    .ok [(jsToLower key, .num (jsParseIntOpt value))]
  else if key = "directory" then
    .ok [("file", jsStrVal value), ("isDir", .num (.num 1))]
  else if key = "Last-Modified" then
    .ok [("lastModified", .date value)]
  else if key = "Time" then
    .ok [("duration", .num (jsParseFloatOpt value))]
  else if key = "song" then
    .ok [("songPos", .num (jsParseIntOpt value))]
  else if key = "songid" then
    .ok [("songId", .num (jsParseIntOpt value))]
  else if key = "time" then
    match value with
    | none => .error .typeError
    | some v =>
      let time := jsSplitChar v ':'
      .ok [("duration", .num (jsParseFloatOpt (time.get? 1)))]
  else if key = "elapsed" then
    .ok [("elapsed", .num (jsParseFloatOpt value))]
  else if key = "bitrate" then
    .ok [("bitRate", .num (jsParseIntOpt value))]
  else if key = "audio" then
    match value with
    | none => .error .typeError
    | some v =>
      let audio := jsSplitChar v ':'
      .ok [("sampleRate", .num (jsParseIntOpt (audio.get? 0))),
           ("sampleBits", .num (jsParseIntOpt (audio.get? 1)))]
  else
    .ok [(jsToLower key, jsStrVal value)]

/-- `MpdClient.parseMessageObject`: merge the fields of every line into
one record with `Object.assign`; a thrown `TypeError` aborts the whole
call. -/
def parseMessageObject (messageLines : List String) : Except MpdError MpdMessage :=
  messageLines.foldlM (fun acc line => do
    pure (msgAssign acc (← parseMessageLine line))) []

/-- The delimiter computed by `parseMessageList`:
`messageLines[0].substring(0, messageLines[0].indexOf(":") + 1)` (the raw
key of the first line including the colon; the empty string when the
first line has no colon). -/
def delimOf (first : String) : String :=
  ⟨first.data.take (jsIndexOfChar first ':' + 1).toNat⟩

/-- The loop of `parseMessageList`: a line starting with the delimiter
begins a new record (and its own fields are assigned to it); other lines
extend the current record, or are dropped while no record exists yet. -/
def parseListLoop (delim : String) :
    List String → Option MpdMessage → List MpdMessage → Except MpdError (List MpdMessage)
  | [], cur, acc => .ok (acc ++ cur.toList)
  | line :: rest, cur, acc =>
    if jsStartsWith line delim then do
      let fields ← parseMessageLine line
      parseListLoop delim rest (some (msgAssign [] fields)) (acc ++ cur.toList)
    else
      match cur with
      | none => parseListLoop delim rest none acc
      | some msg => do
        let fields ← parseMessageLine line
        parseListLoop delim rest (some (msgAssign msg fields)) acc

/-- `MpdClient.parseMessageList`.  On an empty input the source reads
`messageLines[0].substring`, a property access on `undefined`, which
throws a `TypeError`. -/
def parseMessageList (messageLines : List String) : Except MpdError (List MpdMessage) :=
  match messageLines with
  | [] => .error .typeError
  | first :: _ => parseListLoop (delimOf first) messageLines none []

/-- The read loop of `MpdClient.sendCommand` over the decoded response
lines: a line equal to `"OK"` terminates collection, a line starting with
the version banner `"OK MPD"` is skipped, a line starting with `"ACK"`
throws an error carrying `line.substring(4)`, and every other line is
collected.  A closed stream (no terminator) ends collection normally. -/
def collectResponseLines : List String → Except MpdError (List String)
  | [] => .ok []
  | line :: rest =>
    if line = "OK" then .ok []
    else if jsStartsWith line "OK MPD" then collectResponseLines rest
    else if jsStartsWith line "ACK" then .error (.protocolError (jsDrop line 4))
    else (collectResponseLines rest).map (line :: ·)

/-- The response half of `MpdClient.sendCommand`, as a function of the
verb and of the lines the server wrote back: drive the read loop, then
parse the collected data lines as a list for the `playlistinfo` /
`lsinfo` allow-list and as an object for every other verb.  (The request
half — the bytes written to the connection — is `encodedCommand` below.) -/
def sendCommand (command : String) (responseLines : List String) :
    Except MpdError MpdResult := do
  let result ← collectResponseLines responseLines
  if command = "playlistinfo" || command = "lsinfo" then
    (parseMessageList result).map MpdResult.list
  else
    (parseMessageObject result).map MpdResult.obj

/-- A command argument: `string | number` (the numbers handed to
`sendCommand` by the source are integers). -/
inductive MpdArg
  | str (s : String)
  | num (n : Int)
deriving DecidableEq

/-- JavaScript truthiness of an argument: the empty string and the number
0 are falsy. -/
def argTruthy : MpdArg → Bool
  | .str s => !(s == "")
  | .num n => !(decide (n = 0))

/-- Template-literal rendering `${argument}` of an argument. -/
def argToString : MpdArg → String
  | .str s => s
  | .num n => toString n

/-- The `commandLine` local of `sendCommand`:
`argument ? command + " \"" + argument + "\"" : command` — the argument is
embedded verbatim in double quotes, and argument presence is tested by
truthiness. -/
def commandLine (command : String) (argument : Option MpdArg) : String :=
  match argument with
  | some a => if argTruthy a then command ++ " \"" ++ argToString a ++ "\"" else command
  | none => command

/-- The full line written to the connection: `` `${commandLine}\n` ``. -/
def encodedCommand (command : String) (argument : Option MpdArg) : String :=
  commandLine command argument ++ "\n"

/-- The command line written by `MpdClient.setRepeat(state)`. -/
def setRepeatCommandLine (state : Int) : String :=
  encodedCommand "repeat" (some (.num state))

/-- `MpdClient.addSong` up to its first I/O action: the validation check
`path.indexOf("+") >= 0` throws before any connection is opened; an
accepted path reaches `sendCommand("add", path)`, whose first side effect
is writing the encoded command line (returned here as the `ok` value). -/
def addSong (path : String) : Except String String :=
  if jsIndexOfChar path '+' ≥ 0 then
    .error "The path cannot contain a \"+\" sign"
  else
    .ok (encodedCommand "add" (some (.str path)))

/-- The character class of the first regular expression in
`localeCompare` (`util.ts`): JavaScript whitespace and the listed
punctuation characters. -/
def isTier0Char (c : Char) : Bool :=
  isJsSpace c ||
  c = '~' || c = '!' || c = '@' || c = '#' || c = '$' || c = '%' || c = '^' ||
  c = '&' || c = '*' || c = '(' || c = ')' || c = '-' || c = '_' || c = '+' ||
  c = '=' || c = '\x7b' || c = '\x7d' || c = '[' || c = ']' || c = '|' ||
  c = '<' || c = '>' || c = ',' || c = '.' || c = '?' || c = '/' || c = '\\'

/-- `regExp.findIndex(v => v.test(ch))` of `localeCompare`: tier 0 is
punctuation and whitespace, tier 1 digits, tier 2 ASCII letters, tier 3
everything else (`/./`; the only characters `/./` misses are line
terminators, which are already in tier 0). -/
def charTier (c : Char) : Nat :=
  if isTier0Char c then 0
  else if c.isDigit then 1
  else if c.isAlpha then 2
  else 3

/-- `parseInt(aChar)` on a digit character. -/
def digitVal (c : Char) : Int := (c.toNat : Int) - 48

/-- `aChar.localeCompare(bChar, locale)` for the tier-3 (non-punctuation,
non-digit, non-ASCII-letter) characters, modelled as code-point order; no
theorem below compares tier-3 characters, so nothing depends on the exact
collation table. -/
def charCollate (a b : Char) : Int := (a.toNat : Int) - (b.toNat : Int)

/-- The character loop of `localeCompare` (`util.ts`): walk both strings
in lock step, skip equal characters, and decide on the first difference
by tier, then by digit value (tier 1), lower-cased code-unit order
(tier 2), locale collation (tier 3) or raw order (tier 0); when one
string is exhausted the result is the length difference. -/
def localeCompareChars : List Char → List Char → Int
  | [], bs => -(bs.length : Int)
  | a :: as, [] => ((a :: as).length : Int)
  | a :: as, b :: bs =>
    if a = b then localeCompareChars as bs
    else
      let ai := charTier a
      let bi := charTier b
      if ai ≠ bi then (ai : Int) - (bi : Int)
      else if ai = 1 then digitVal a - digitVal b
      else if ai = 2 then (if charToLower a < charToLower b then -1 else 1)
      else if ai = 3 then charCollate a b
      else (if a < b then -1 else 1)

/-- `localeCompare(aStr, bStr)` from `util.ts`. -/
def localeCompare (aStr bStr : String) : Int :=
  localeCompareChars aStr.data bStr.data

/-- The comparator passed to `list.sort` by `MpdClient.getLibrary`:
`-1` when `a.isDir` is truthy and `b.isDir` is not (that branch never
reads `file`), otherwise `localeCompare(a.file, b.file)` — note that the
symmetric directory/file case is NOT short-circuited.  A record produced
by the message parser stores `file` either as a string or as
`undefined`; in the `undefined` (or absent-property) case the
fall-through comparison reads `aStr.length` on `undefined` inside
`localeCompare` and throws a `TypeError`. -/
def libraryCompare (a b : MpdMessage) : Except MpdError Int :=
  if jsTruthyO (List.lookup "isDir" a) && !(jsTruthyO (List.lookup "isDir" b)) then .ok (-1)
  else
    match List.lookup "file" a, List.lookup "file" b with
    | some (.str sa), some (.str sb) => .ok (localeCompare sa sb)
    | _, _ => .error .typeError

/-- The strictly descending initial run, as V8's `CountAndMakeRun`
extends it: keep taking elements while `compare(next, prev) < 0`; an
exception thrown by the comparator propagates out of the sort. -/
def takeRunDesc (cmp : α → α → Except ε Int) : α → List α → Except ε (List α × List α)
  | _, [] => .ok ([], [])
  | prev, x :: rest => do
    let c ← cmp x prev
    if c < 0 then
      let p ← takeRunDesc cmp x rest
      pure (x :: p.1, p.2)
    else pure ([], x :: rest)

/-- The weakly ascending initial run: keep taking elements while
`compare(next, prev) >= 0`. -/
def takeRunAsc (cmp : α → α → Except ε Int) : α → List α → Except ε (List α × List α)
  | _, [] => .ok ([], [])
  | prev, x :: rest => do
    let c ← cmp x prev
    if c < 0 then pure ([], x :: rest)
    else
      let p ← takeRunAsc cmp x rest
      pure (x :: p.1, p.2)

/-- V8's binary search for the insertion point of `pivot` in the sorted
prefix: halve `[left, right)` with `compare(pivot, sorted[mid]) < 0`
deciding the side.  The gap shrinks every iteration, so `right - left`
steps of fuel always suffice (the fuel makes the definition structurally
recursive and hence kernel-evaluable). -/
def binSearchPosFuel (cmp : α → α → Except ε Int) (sorted : List α) (pivot : α) :
    Nat → Nat → Nat → Except ε Nat
  | 0, left, _ => .ok left
  | fuel + 1, left, right =>
    if left < right then do
      let mid := left + (right - left) / 2
      let c ← cmp pivot (sorted.getD mid pivot)
      if c < 0 then binSearchPosFuel cmp sorted pivot fuel left mid
      else binSearchPosFuel cmp sorted pivot fuel (mid + 1) right
    else .ok left

/-- Insert an element at a position (shifting the tail), as the binary
insertion sort places its pivot. -/
def insertAtPos : Nat → α → List α → List α
  | 0, x, l => x :: l
  | _ + 1, x, [] => [x]
  | n + 1, x, y :: l => y :: insertAtPos n x l

/-- V8's `BinaryInsertionSort`: insert the remaining elements one by one
into the sorted prefix at the position found by binary search. -/
def binInsertSortTail (cmp : α → α → Except ε Int) : List α → List α → Except ε (List α)
  | sorted, [] => .ok sorted
  | sorted, pivot :: rest => do
    let pos ← binSearchPosFuel cmp sorted pivot sorted.length 0 sorted.length
    binInsertSortTail cmp (insertAtPos pos pivot sorted) rest

/-- `Array.prototype.sort(cmp)` as V8 (Deno's engine) executes it on
arrays of fewer than 64 elements: detect the initial run (reversing a
strictly descending one), then binary-insert the remaining elements.
An exception thrown by any comparator call aborts the sort at that
point.  Every sort in this development is over such short arrays. -/
def jsSort (cmp : α → α → Except ε Int) : List α → Except ε (List α)
  | [] => .ok []
  | [x] => .ok [x]
  | x :: y :: rest => do
    let c ← cmp y x
    if c < 0 then
      let p ← takeRunDesc cmp y rest
      binInsertSortTail cmp (x :: y :: p.1).reverse p.2
    else
      let p ← takeRunAsc cmp y rest
      binInsertSortTail cmp (x :: y :: p.1) p.2

/-- The sort applied by `MpdClient.getLibrary` to the parsed `lsinfo`
records; a `TypeError` thrown by a comparator call fails the whole
call. -/
def getLibrarySort (list : List MpdMessage) : Except MpdError (List MpdMessage) :=
  jsSort libraryCompare list

/-- One parsing call, as dispatched by `sendCommand`: list mode for the
allow-listed verbs, object mode otherwise. -/
def parseCall : Bool × List String → Except MpdError MpdResult
  | (true, lines) => (parseMessageList lines).map MpdResult.list
  | (false, lines) => (parseMessageObject lines).map MpdResult.obj

/-- Scanning `k` followed by a colon-whitespace separator: when `/:\s/`
does not match inside `k`, the first split happens exactly at the
separator. -/
theorem splitAux_through (k : List Char) (rest : List Char)
    (hk : hasColonWsPair k = false) :
    ∀ cur, splitColonWsAux (k ++ ':' :: ' ' :: rest) cur =
      (cur.reverse ++ k) :: splitColonWsAux rest [] := by
  induction k with
  | nil => intro cur; simp [splitColonWsAux, isJsSpace]
  | cons c k' ih =>
    intro cur
    cases k' with
    | nil =>
      have hc : (c = ':' && isJsSpace ':') = false := by simp [isJsSpace]
      simp [splitColonWsAux, hc, isJsSpace]
    | cons c2 k'' =>
      have hk1 : (c = ':' && isJsSpace c2) = false := by
        simp only [hasColonWsPair] at hk
        exact (Bool.or_eq_false_iff.mp hk).1
      have hk2 : hasColonWsPair (c2 :: k'') = false := by
        simp only [hasColonWsPair] at hk
        exact (Bool.or_eq_false_iff.mp hk).2
      have step : splitColonWsAux ((c :: c2 :: k'') ++ ':' :: ' ' :: rest) cur =
          splitColonWsAux ((c2 :: k'') ++ ':' :: ' ' :: rest) (c :: cur) := by
        simp [splitColonWsAux, hk1]
      rw [step, ih hk2 (c :: cur)]
      simp [List.append_assoc]

/-- Scanning a list in which `/:\s/` never matches produces a single
segment. -/
theorem splitAux_nopair (l : List Char) (hl : hasColonWsPair l = false) :
    ∀ cur, splitColonWsAux l cur = [cur.reverse ++ l] := by
  induction l with
  | nil => intro cur; simp [splitColonWsAux]
  | cons c l' ih =>
    intro cur
    cases l' with
    | nil => simp [splitColonWsAux]
    | cons c2 l'' =>
      have h1 : (c = ':' && isJsSpace c2) = false := by
        simp only [hasColonWsPair] at hl
        exact (Bool.or_eq_false_iff.mp hl).1
      have h2 : hasColonWsPair (c2 :: l'') = false := by
        simp only [hasColonWsPair] at hl
        exact (Bool.or_eq_false_iff.mp hl).2
      have step : splitColonWsAux (c :: c2 :: l'') cur =
          splitColonWsAux (c2 :: l'') (c :: cur) := by
        simp [splitColonWsAux, h1]
      rw [step, ih h2 (c :: cur)]
      simp

/-- The character data of an appended string. -/
theorem strDataAppend (a b : String) : (a ++ b).data = a.data ++ b.data := by
  obtain ⟨ad⟩ := a
  obtain ⟨bd⟩ := b
  rfl

/-- `split(/:\s/)` on `k + ": " + v` when the separator occurs nowhere
else: exactly the two segments. -/
theorem splitColonWs_kv (k v : String) (hk : hasColonWsPair k.data = false)
    (hv : hasColonWsPair v.data = false) :
    splitColonWs (k ++ ": " ++ v) = [k, v] := by
  obtain ⟨kd⟩ := k
  obtain ⟨vd⟩ := v
  unfold splitColonWs
  rw [strDataAppend, strDataAppend]
  have hd : (String.mk kd).data ++ (": " : String).data ++ (String.mk vd).data =
      kd ++ ':' :: ' ' :: vd := by
    simp [List.append_assoc]
  rw [hd, splitAux_through kd vd hk [], splitAux_nopair vd hv []]
  simp

/-- `split(/:\s/)` on `k + ": " + v + ": " + w` with the separator
nowhere inside the pieces: exactly the three segments. -/
theorem splitColonWs_kvw (k v w : String) (hk : hasColonWsPair k.data = false)
    (hv : hasColonWsPair v.data = false) (hw : hasColonWsPair w.data = false) :
    splitColonWs (k ++ ": " ++ v ++ ": " ++ w) = [k, v, w] := by
  obtain ⟨kd⟩ := k
  obtain ⟨vd⟩ := v
  obtain ⟨wd⟩ := w
  unfold splitColonWs
  rw [strDataAppend, strDataAppend, strDataAppend, strDataAppend]
  have hd : (String.mk kd).data ++ (": " : String).data ++ (String.mk vd).data ++
      (": " : String).data ++ (String.mk wd).data =
      kd ++ ':' :: ' ' :: (vd ++ ':' :: ' ' :: wd) := by
    simp [List.append_assoc]
  rw [hd, splitAux_through kd (vd ++ ':' :: ' ' :: wd) hk [],
      splitAux_through vd wd hv [], splitAux_nopair wd hw []]
  simp

/-- The keys treated specially by the coercion switch of
`parseMessageLine`, in source order. -/
def coercedKeys : List String :=
  ["Id", "Pos", "volume", "repeat", "random", "single", "consume", "playlist",
   "directory", "Last-Modified", "Time", "song", "songid", "time", "elapsed",
   "bitrate", "audio"]

/-- A well-formed `key: value` line whose raw key is not in the coercion
table parses to the single field `lower-cased key ↦ value`. -/
theorem parseLine_default (k v : String) (hk : hasColonWsPair k.data = false)
    (hv : hasColonWsPair v.data = false) (hmem : k ∉ coercedKeys) :
    parseMessageLine (k ++ ": " ++ v) = .ok [(jsToLower k, .str v)] := by
  have hsplit := splitColonWs_kv k v hk hv
  simp only [coercedKeys, List.mem_cons, List.not_mem_nil, or_false, not_or] at hmem
  obtain ⟨h1, h2, h3, h4, h5, h6, h7, h8, h9, h10, h11, h12, h13, h14, h15, h16, h17⟩ := hmem
  simp [parseMessageLine, hsplit, jsStrVal,
    h1, h2, h3, h4, h5, h6, h7, h8, h9, h10, h11, h12, h13, h14, h15, h16, h17]

/-- A scan for a character that is present never reports `-1`. -/
theorem jsIndexOfCharAux_nonneg (c : Char) :
    ∀ (l : List Char), c ∈ l → ∀ i : Nat, 0 ≤ jsIndexOfCharAux c l i := by
  intro l
  induction l with
  | nil => intro h; exact absurd h (List.not_mem_nil c)
  | cons x rest ih =>
    intro h i
    by_cases hx : x = c
    · simp [jsIndexOfCharAux, hx]
    · have hmem : c ∈ rest := by
        rcases List.mem_cons.mp h with h' | h'
        · exact absurd h'.symm hx
        · exact h'
      simp [jsIndexOfCharAux, hx, ih hmem (i + 1)]

/-- Reading response lines: data and banner lines before an `ACK` line do
not change the outcome — the loop fails with the text after the marker,
whatever follows. -/
theorem collect_ack (m : String) (pre rest : List String)
    (hpre : ∀ l ∈ pre, l ≠ "OK" ∧ jsStartsWith l "ACK" = false) :
    collectResponseLines (pre ++ ("ACK " ++ m) :: rest) = .error (.protocolError m) := by
  induction pre with
  | nil =>
    obtain ⟨md⟩ := m
    rfl
  | cons l pre ih =>
    obtain ⟨h1, h2⟩ := hpre l (List.mem_cons_self _ _)
    have ih' := ih (fun x hx => hpre x (List.mem_cons_of_mem _ hx))
    by_cases hb : jsStartsWith l "OK MPD" = true
    · simp [collectResponseLines, h1, hb, ih']
    · simp [collectResponseLines, h1, hb, h2, ih', Except.map]

/-- Claim C1: a response with zero data lines yields an empty record in
object mode, but in list mode (`playlistinfo` / `lsinfo`) the code reads
`messageLines[0].substring` on `undefined` and throws a `TypeError` —
the list-mode call fails on the empty input instead of returning an
empty sequence. -/
theorem emptyResponse_behavior :
    parseMessageObject [] = .ok ([] : MpdMessage) ∧
    parseMessageList [] = .error .typeError ∧
    sendCommand "status" ["OK"] = .ok (.obj []) ∧
    sendCommand "playlistinfo" ["OK"] = .error .typeError ∧
    sendCommand "lsinfo" ["OK"] = .error .typeError := by decide

/-- Claim C3, counterexample: `split(/:\s/)` splits at every
colon-whitespace, so on `"Title: a: b"` the value is `"a"`, not the
whole remainder `"a: b"` the claim promises. -/
theorem parseLine_split_counterexample :
    parseMessageLine "Title: a: b" = .ok [("title", .str "a")] ∧
    (Except.ok [(("title" : String), MpdValue.str "a")] : Except MpdError MpdMessage) ≠
      .ok [("title", .str "a: b")] := by decide

/-- Claim C3, amended: the key is the text before the first colon-space
and the value is the text between the first and the second occurrence of
colon-space (the whole remainder only when no further occurrence
exists); an unlisted key yields the single field lower-cased key ↦ value
string. -/
theorem parseLine_split_amended :
    (∀ k v : String, hasColonWsPair k.data = false → hasColonWsPair v.data = false →
      k ∉ coercedKeys → parseMessageLine (k ++ ": " ++ v) = .ok [(jsToLower k, .str v)]) ∧
    (∀ k v w : String, hasColonWsPair k.data = false → hasColonWsPair v.data = false →
      hasColonWsPair w.data = false → k ∉ coercedKeys →
      parseMessageLine (k ++ ": " ++ v ++ ": " ++ w) = .ok [(jsToLower k, .str v)]) := by
  constructor
  · exact parseLine_default
  · intro k v w hk hv hw hmem
    have hsplit := splitColonWs_kvw k v w hk hv hw
    simp only [coercedKeys, List.mem_cons, List.not_mem_nil, or_false, not_or] at hmem
    obtain ⟨h1, h2, h3, h4, h5, h6, h7, h8, h9, h10, h11, h12, h13, h14, h15, h16, h17⟩ := hmem
    simp [parseMessageLine, hsplit, jsStrVal,
      h1, h2, h3, h4, h5, h6, h7, h8, h9, h10, h11, h12, h13, h14, h15, h16, h17]

/-- Claim C3, witness: the amended statement at concrete lines. -/
theorem parseLine_split_witness :
    parseMessageLine ("Artist" ++ ": " ++ "Queen") = .ok [(jsToLower "Artist", .str "Queen")] ∧
    parseMessageLine ("x" ++ ": " ++ "a" ++ ": " ++ "b") = .ok [(jsToLower "x", .str "a")] :=
  ⟨parseLine_split_amended.1 "Artist" "Queen" (by decide) (by decide) (by decide),
   parseLine_split_amended.2 "x" "a" "b" (by decide) (by decide) (by decide) (by decide)⟩

/-- Claim C4, counterexample: a line without a colon-space separator is
not a no-op — `"hello"` contributes the field `hello ↦ undefined`, and
`"audio"` even fails the call with a `TypeError`. -/
theorem parseLine_malformed_counterexample :
    parseMessageLine "audio" = .error .typeError ∧
    parseMessageLine "hello" = .ok [("hello", .undefined)] ∧
    (Except.ok [(("hello" : String), MpdValue.undefined)] : Except MpdError MpdMessage) ≠
      .ok ([] : MpdMessage) := by decide

/-- Claim C4, amended: a separator-less or empty data line yields one
field binding the whole line (lower-cased, or routed through the
coercion table, e.g. `Time ↦ duration: NaN`) to the `undefined` value,
which `Object.assign` does copy into the assembled record; for the
source keys `time` and `audio` the missing value makes
`value.split(":")` throw a `TypeError` that fails the call. -/
theorem parseLine_malformed_amended :
    parseMessageLine "" = .ok [("", .undefined)] ∧
    parseMessageLine "foo:bar" = .ok [("foo:bar", .undefined)] ∧
    parseMessageLine "Time" = .ok [("duration", .num .nan)] ∧
    parseMessageLine "time" = .error .typeError ∧
    parseMessageObject ["hello"] = .ok [("hello", .undefined)] := by decide

/-- Claim C5, counterexample: a supplied but falsy argument (the number
0 or the empty string) is encoded as the bare verb, not quoted. -/
theorem encodedCommand_counterexample :
    encodedCommand "repeat" (some (.num 0)) = "repeat\n" ∧
    encodedCommand "add" (some (.str "")) = "add\n" ∧
    ("repeat\n" : String) ≠ "repeat \"0\"\n" := by decide

/-- Claim C5, amended: a verb with no argument encodes as `verb\n`
exactly, and a verb with a truthy argument (non-zero number or non-empty
string) encodes as `verb "argument"\n` with the argument embedded
verbatim; falsy arguments fall back to the bare verb. -/
theorem encodedCommand_amended :
    (∀ verb : String, encodedCommand verb none = verb ++ "\n") ∧
    (∀ (verb : String) (a : MpdArg), argTruthy a = true →
      encodedCommand verb (some a) = verb ++ " \"" ++ argToString a ++ "\"" ++ "\n") := by
  constructor
  · intro verb; rfl
  · intro verb a ha
    simp [encodedCommand, commandLine, ha]

/-- Claim C5, witness: the amended statement at concrete commands. -/
theorem encodedCommand_amended_witness :
    encodedCommand "play" none = "play\n" ∧
    encodedCommand "add" (some (.str "a b.mp3")) = "add \"a b.mp3\"\n" := by
  constructor
  · exact encodedCommand_amended.1 "play"
  · exact (encodedCommand_amended.2 "add" (.str "a b.mp3") (by decide)).trans (by decide)

/-- Claim C7: on the four-line input the delimiter is the raw key of the
first line (with its colon), a line starts a new record exactly when its
raw key is `file`, and the parse yields the two records
`{file, duration}` with the durations parsed as floats. -/
theorem parseList_delimiter_example :
    delimOf "file: a.mp3" = "file:" ∧
    (["file: a.mp3", "Time: 10", "file: b.mp3", "Time: 20"].all fun l =>
      jsStartsWith l (delimOf "file: a.mp3") == ((splitColonWs l).getD 0 "" == "file")) ∧
    parseMessageList ["file: a.mp3", "Time: 10", "file: b.mp3", "Time: 20"] =
      .ok [[("file", .str "a.mp3"), ("duration", .num (.num (ratOfInt 10)))],
           [("file", .str "b.mp3"), ("duration", .num (.num (ratOfInt 20)))]] := by decide

/-- Claim C10: a falsy supplied argument (0 or the empty string) makes
`sendCommand` write the bare verb — `setRepeat(0)` writes `repeat\n`,
not `repeat "0"\n` — because presence is tested by truthiness. -/
theorem falsy_argument_bare_verb :
    (∀ (verb : String) (a : MpdArg), argTruthy a = false →
      encodedCommand verb (some a) = verb ++ "\n") ∧
    setRepeatCommandLine 0 = "repeat\n" ∧
    ("repeat\n" : String) ≠ "repeat \"0\"\n" := by
  refine ⟨?_, by decide, by decide⟩
  intro verb a ha
  simp [encodedCommand, commandLine, ha]

/-- Claim C10, witness: the universal part at a concrete falsy argument. -/
theorem falsy_argument_bare_verb_witness :
    encodedCommand "single" (some (.num 0)) = "single" ++ "\n" :=
  falsy_argument_bare_verb.1 "single" (.num 0) (by decide)

/-- Claim C6: a response line starting with the `ACK` marker makes the
call fail with the remainder of that line after marker and separator as
message; any lines after it are irrelevant (never consumed) and the data
lines collected before it are discarded, whatever the verb. -/
theorem sendCommand_ack_fails (cmd m : String) (pre rest : List String)
    (hpre : ∀ l ∈ pre, l ≠ "OK" ∧ jsStartsWith l "ACK" = false) :
    sendCommand cmd (pre ++ ("ACK " ++ m) :: rest) = .error (.protocolError m) := by
  have h := collect_ack m pre rest hpre
  simp [sendCommand, h, Except.map, Bind.bind, Except.bind]

/-- Claim C6, witness: a first-line `ACK some error` (after a data line)
fails with message `some error` and no partial result. -/
theorem sendCommand_ack_fails_witness :
    sendCommand "status" (["title: x"] ++ ("ACK " ++ "some error") :: ["junk"]) =
      .error (.protocolError "some error") :=
  sendCommand_ack_fails "status" "some error" ["title: x"] ["junk"] (by decide)

/-- Claim C8: any path containing `+` makes `addSong` throw its
validation error before any connection is opened or any byte written
(the `ok` branch, which would carry the encoded `add` command line, is
never reached). -/
theorem addSong_plus_rejected (path : String) (h : '+' ∈ path.data) :
    addSong path = .error "The path cannot contain a \"+\" sign" := by
  have hge := jsIndexOfCharAux_nonneg '+' path.data h 0
  simp [addSong, jsIndexOfChar, hge]

/-- Claim C8, witness: a concrete path with a `+`. -/
theorem addSong_plus_rejected_witness :
    addSong "a+b.mp3" = .error "The path cannot contain a \"+\" sign" :=
  addSong_plus_rejected "a+b.mp3" (by decide)

/-- Claim C2, counterexample: the comparator only short-circuits when
its first argument is the directory, so sorting
`[{file:"b", isDir:1}, {file:"a"}]` (as V8 does) leaves the plain file
`a` before the directory `b` — a record without truthy `isDir` precedes
one with it. -/
theorem getLibrary_sort_counterexample :
    getLibrarySort [[("file", .str "b"), ("isDir", .num (.num (ratOfInt 1)))],
                    [("file", .str "a")]] =
      .ok [[("file", .str "a")], [("file", .str "b"), ("isDir", .num (.num (ratOfInt 1)))]] ∧
    jsTruthyO (List.lookup "isDir" [(("file" : String), MpdValue.str "a")]) = false ∧
    jsTruthyO (List.lookup "isDir"
      [(("file" : String), MpdValue.str "b"),
       ("isDir", MpdValue.num (.num (ratOfInt 1)))]) = true := by decide

/-- Claim C2, amended: the comparator returns `-1` whenever its first
argument has truthy `isDir` and its second does not; whenever both sides
have the same `isDir` truthiness and both carry a string `file` it
returns `localeCompare` of those names, while a fall-through comparison
that meets a record without a string `file` throws a `TypeError` — but
the symmetric file/directory case also falls through to the name
comparison, so directories are not guaranteed to precede files for all
names; the spec's own three-element example does sort to directory
first, then the files in comparator order. -/
theorem getLibrary_sort_amended :
    (∀ a b : MpdMessage, jsTruthyO (List.lookup "isDir" a) = true →
      jsTruthyO (List.lookup "isDir" b) = false → libraryCompare a b = .ok (-1)) ∧
    (∀ (a b : MpdMessage) (sa sb : String),
      jsTruthyO (List.lookup "isDir" a) = jsTruthyO (List.lookup "isDir" b) →
      List.lookup "file" a = some (.str sa) → List.lookup "file" b = some (.str sb) →
      libraryCompare a b = .ok (localeCompare sa sb)) ∧
    libraryCompare ([] : MpdMessage) ([] : MpdMessage) = .error .typeError ∧
    getLibrarySort [[("isDir", .bool false), ("file", .str "b")],
                    [("isDir", .bool true), ("file", .str "a")],
                    [("isDir", .bool false), ("file", .str "a")]] =
      .ok [[("isDir", .bool true), ("file", .str "a")],
           [("isDir", .bool false), ("file", .str "a")],
           [("isDir", .bool false), ("file", .str "b")]] := by
  refine ⟨?_, ?_, by decide, by decide⟩
  · intro a b ha hb
    simp [libraryCompare, ha, hb]
  · intro a b sa sb hab hfa hfb
    simp [libraryCompare, hab, Bool.and_not_self, hfa, hfb]

/-- Claim C2, witness: the amended comparator facts at concrete records. -/
theorem getLibrary_sort_amended_witness :
    libraryCompare [(("isDir" : String), MpdValue.num (.num (ratOfInt 1)))] [] = .ok (-1) ∧
    libraryCompare [(("file" : String), MpdValue.str "a")]
        [(("file" : String), MpdValue.str "b")] = .ok (localeCompare "a" "b") :=
  ⟨getLibrary_sort_amended.1 _ _ (by decide) (by decide),
   getLibrary_sort_amended.2.1 _ _ "a" "b" (by decide) (by decide) (by decide)⟩

/-- Claim C9: parsing is a pure function of the input lines — in a
sequence of parse calls the result of a call equals the stand-alone
parse of its own input and is therefore unchanged under any different
history of preceding calls, in object mode and in list mode alike. -/
theorem parsing_stateless (pre pre' : List (Bool × List String)) (c : Bool × List String) :
    (List.map parseCall (pre ++ [c])).getLast? = some (parseCall c) ∧
    (List.map parseCall (pre ++ [c])).getLast? =
      (List.map parseCall (pre' ++ [c])).getLast? := by
  have h1 : ∀ l : List (Bool × List String),
      (List.map parseCall (l ++ [c])).getLast? = some (parseCall c) := by
    intro l
    rw [List.map_append]
    simp
  exact ⟨h1 pre, (h1 pre).trans (h1 pre').symm⟩

/-- Claim C9, witness: a concrete two-call history. -/
theorem parsing_stateless_witness :
    (List.map parseCall ([(false, ["volume: 42"])] ++ [(true, ["file: a"])])).getLast? =
      some (parseCall (true, ["file: a"])) :=
  (parsing_stateless [(false, ["volume: 42"])] [] (true, ["file: a"])).1
